import Mathlib

/-!
Shallow embedding of the record-transformation core of `pyqif.py`, a
csv-to-qif converter.  Python dicts (which preserve insertion order) are
modelled as association lists, Python exceptions / `sys.exit` as `Option`
(`none` = the run aborts), and Python's `re.subn` with `re.IGNORECASE` is
modelled for patterns that contain no regex metacharacters (the only kind
appearing in the specification) and replacements without backreferences.
`datetime.strptime` / `strftime` are modelled for the directives `%d`,
`%m`, `%Y` and `%%` plus literal characters, which covers every format
string the specification mentions; an unsupported directive makes the
parse fail.
-/

/-- Python list indexing `l[i]`, which accepts negative indices counting
from the end and raises IndexError (here `none`) when out of range. -/
def pyIndex (l : List String) (i : Int) : Option String :=
  if i < 0 then
    let j : Int := (l.length : Int) + i
    if j < 0 then none else l.get? j.toNat
  else
    l.get? i.toNat

/-- Case-insensitive character comparison, as under `re.IGNORECASE`. -/
def lcEq (a b : Char) : Bool :=
  a.toLower == b.toLower

/-- Whether `pat` is a case-insensitive prefix of `s`. -/
def ciStarts : List Char → List Char → Bool
  | [], _ => true
  | _ :: _, [] => false
  | a :: ps, b :: ss => lcEq a b && ciStarts ps ss

/-- Left-to-right, non-overlapping, case-insensitive replacement of the
literal pattern `pat` by `sub`, counting replacements: the scan of
`re.subn(pat, sub, s, flags=re.IGNORECASE)` for metacharacter-free `pat`.
The fuel argument is instantiated with the length of the string; every
step consumes at least one character, so the fuel never runs out. -/
def subnAux (pat sub : List Char) : Nat → List Char → List Char × Nat
  | _, [] => ([], 0)
  | 0, s => (s, 0)
  | fuel + 1, c :: rest =>
    if !pat.isEmpty && ciStarts pat (c :: rest) then
      let r := subnAux pat sub fuel (List.drop (pat.length - 1) rest)
      (sub ++ r.1, r.2 + 1)
    else
      let r := subnAux pat sub fuel rest
      (c :: r.1, r.2)

/-- `re.subn(pat, sub, s, flags=re.IGNORECASE)` for a literal pattern:
returns the substituted string together with the number of replacements. -/
def subn (pat sub s : String) : String × Nat :=
  let r := subnAux pat.toList sub.toList s.toList.length s.toList
  (String.mk r.1, r.2)

/-- Calendar date produced by `datetime.strptime`; unparsed components
keep Python's defaults 1900-01-01. -/
structure PyDate where
  y : Nat
  m : Nat
  d : Nat
  deriving DecidableEq, Repr

/-- Read two leading decimal digits. -/
def twoDigits : List Char → Option (Nat × List Char)
  | a :: b :: rest =>
    if a.isDigit && b.isDigit then
      some ((a.toNat - 48) * 10 + (b.toNat - 48), rest)
    else none
  | _ => none

/-- Read one leading decimal digit. -/
def oneDigit : List Char → Option (Nat × List Char)
  | a :: rest => if a.isDigit then some (a.toNat - 48, rest) else none
  | _ => none

/-- Read exactly four leading decimal digits, as the `%Y` regex of
CPython's `_strptime` does. -/
def fourDigits : List Char → Option (Nat × List Char)
  | a :: b :: c :: d :: rest =>
    if a.isDigit && b.isDigit && c.isDigit && d.isDigit then
      some (((a.toNat - 48) * 10 + (b.toNat - 48)) * 100 +
        (c.toNat - 48) * 10 + (d.toNat - 48), rest)
    else none
  | _ => none

/-- Matching engine of `datetime.strptime(data, fmt)` restricted to the
directives `%d`, `%m`, `%Y`, `%%` and literal characters: `%d` accepts a
two-digit value 01..31 or a single digit 1..9 (two digits preferred, with
backtracking, exactly as the regex alternation `3[01]|[12]\d|0[1-9]|[1-9]`
behaves), `%m` likewise with range 1..12, `%Y` exactly four digits;
literals match case-insensitively; the whole string must be consumed. -/
def parseLoop : List Char → List Char → PyDate → Option PyDate
  | [], [], pd => some pd
  | [], _ :: _, _ => none
  | '%' :: 'd' :: f, s, pd =>
    let two :=
      match twoDigits s with
      | some vr =>
        if 1 ≤ vr.1 ∧ vr.1 ≤ 31 then parseLoop f vr.2 { pd with d := vr.1 } else none
      | none => none
    (match two with
     | some r => some r
     | none =>
       match oneDigit s with
       | some vr =>
         if 1 ≤ vr.1 ∧ vr.1 ≤ 9 then parseLoop f vr.2 { pd with d := vr.1 } else none
       | none => none)
  | '%' :: 'm' :: f, s, pd =>
    let two :=
      match twoDigits s with
      | some vr =>
        if 1 ≤ vr.1 ∧ vr.1 ≤ 12 then parseLoop f vr.2 { pd with m := vr.1 } else none
      | none => none
    (match two with
     | some r => some r
     | none =>
       match oneDigit s with
       | some vr =>
         if 1 ≤ vr.1 ∧ vr.1 ≤ 9 then parseLoop f vr.2 { pd with m := vr.1 } else none
       | none => none)
  | '%' :: 'Y' :: f, s, pd =>
    (match fourDigits s with
     | some vr => parseLoop f vr.2 { pd with y := vr.1 }
     | none => none)
  | '%' :: '%' :: f, s, pd =>
    (match s with
     | '%' :: rest => parseLoop f rest pd
     | _ => none)
  | '%' :: _ :: _, _, _ => none
  | ['%'], _, _ => none
  | c :: f, s, pd =>
    (match s with
     | d :: rest => if lcEq c d then parseLoop f rest pd else none
     | [] => none)

/-- Gregorian leap-year rule, as `datetime` uses. -/
def isLeap (y : Nat) : Bool :=
  (y % 4 == 0 && y % 100 != 0) || y % 400 == 0

/-- Number of days of month `m` in year `y`. -/
def daysInMonth (y m : Nat) : Nat :=
  if m = 2 then (if isLeap y then 29 else 28)
  else if m = 4 ∨ m = 6 ∨ m = 9 ∨ m = 11 then 30
  else 31

/-- `datetime.strptime(data, fmt)` (date components only): regex-style
matching followed by the range validation the `datetime` constructor
performs; `none` models the ValueError raised on failure. -/
def strptime (data fmt : String) : Option PyDate :=
  (parseLoop fmt.toList data.toList ⟨1900, 1, 1⟩).bind fun pd =>
    if 1 ≤ pd.y ∧ pd.y ≤ 9999 ∧ 1 ≤ pd.m ∧ pd.m ≤ 12 ∧
        1 ≤ pd.d ∧ pd.d ≤ daysInMonth pd.y pd.m then
      some pd
    else none

/-- Zero-pad a number below 100 to two digits, as `%m`/`%d` render. -/
def pad2 (n : Nat) : String :=
  if n < 10 then "0" ++ toString n else toString n

/-- Rendering loop of `date.strftime` for the modelled directives;
unknown directives are copied through verbatim. -/
def strftimeLoop (pd : PyDate) : List Char → List Char
  | [] => []
  | '%' :: 'Y' :: f => (toString pd.y).toList ++ strftimeLoop pd f
  | '%' :: 'm' :: f => (pad2 pd.m).toList ++ strftimeLoop pd f
  | '%' :: 'd' :: f => (pad2 pd.d).toList ++ strftimeLoop pd f
  | '%' :: '%' :: f => '%' :: strftimeLoop pd f
  | '%' :: c :: f => '%' :: c :: strftimeLoop pd f
  | c :: f => c :: strftimeLoop pd f

/-- `date.strftime(fmt)` on the parsed calendar date. -/
def strftime (fmt : String) (pd : PyDate) : String :=
  String.mk (strftimeLoop pd fmt.toList)

/-- `process_date(data, in_date, out_date)` of pyqif.py (lines 90-95):
parse `data` with the input pattern and re-render the resulting calendar
date with the output pattern; `none` models the uncaught ValueError. -/
def process_date (data in_date out_date : String) : Option String :=
  (strptime data in_date).map fun pd => strftime out_date pd

/-- A value of the `items` mapping: either an already fixed 1-based
column position (a Python int) or a header-name string still to be
resolved. -/
inductive ItemVal where
  | pos : Int → ItemVal
  | name : String → ItemVal
  deriving DecidableEq, Repr

/-- The account configuration fields the processing core reads, after
`main` has merged `DEFAULT_CONFIG` with the account section and added an
empty `substitutions` table when absent.  `date_input` is optional: it
has no entry in `DEFAULT_CONFIG` (lines 18-23), so reading it when the
account did not set it raises KeyError. -/
structure Config where
  type : String
  items : List (String × ItemVal)
  substitutions : List (String × List (String × String))
  date_input : Option String
  date_output : String
  deriving DecidableEq, Repr

/-- First-match lookup in an association list, i.e. Python dict access. -/
def dictFind (k : String) : List (String × α) → Option α
  | [] => none
  | (k2, v) :: rest => if k = k2 then some v else dictFind k rest

/-- `gen_header(acc_name, acc_type)` of pyqif.py (lines 81-87). -/
def gen_header (acc_name acc_type : String) : String :=
  "!Account\nN" ++ acc_name ++ "\nT" ++ acc_type ++ "\n^\n!Type:" ++
    acc_type ++ "\n^\n"

/-- Effectful map over a list in the `Option` monad: the first failure
aborts the whole computation, like an exception in a Python loop. -/
def mapOpt (f : α → Option β) : List α → Option (List β)
  | [] => some []
  | a :: l => (f a).bind fun b => (mapOpt f l).map fun bs => b :: bs

/-- Concatenation of a list of strings, in order. -/
def strConcat : List String → String
  | [] => ""
  | s :: rest => s ++ strConcat rest

/-- Text contributed to the record by one entry of `cfg['items']` inside
the loop of `process_entry` (pyqif.py lines 103-126): a still-unresolved
name raises TypeError at `position -= 1`; field code `D` converts the
cell through `process_date` (reading `cfg['date_input']`, KeyError when
missing); a field with a substitution table entry evaluates
`data[position]` once per rule and appends one line per matching rule; any
other field copies its cell unless the cell is the empty string. -/
def entryOne (data : List String) (cfg : Config) : String × ItemVal → Option String
  | (_, ItemVal.name _) => none
  | (k, ItemVal.pos p) =>
    let position := p - 1
    if k = "D" then
      (pyIndex data position).bind fun cell =>
        cfg.date_input.bind fun di =>
          (process_date cell di cfg.date_output).map fun date => k ++ date ++ "\n"
    else
      match dictFind k cfg.substitutions with
      | some rules =>
        (mapOpt (fun pr =>
          (pyIndex data position).map fun cell =>
            let r := subn pr.1 pr.2 cell
            if 0 < r.2 then k ++ r.1 ++ "\n" else "") rules).map fun segs =>
          strConcat segs
      | none =>
        (pyIndex data position).map fun cell =>
          if cell = "" then "" else k ++ cell ++ "\n"

/-- `process_entry(data, cfg)` of pyqif.py (lines 98-128): concatenate
the contribution of every `items` entry in declared order and terminate
the record with the sentinel line. -/
def process_entry (data : List String) (cfg : Config) : Option String :=
  (mapOpt (entryOne data cfg) cfg.items).map fun segs => strConcat segs ++ "^\n"

/-- `list.index` of Python: index of the first occurrence. -/
def headerIndex (header : List String) (s : String) : Option Nat :=
  match header with
  | [] => none
  | h :: t => if h = s then some 0 else (headerIndex t s).map fun i => i + 1

/-- Resolution loop of `process_header` (pyqif.py lines 131-145): every
string-valued entry is replaced by `header.index(value) + 1`; a name
absent from the header makes the whole run exit (status 4). -/
def resolveItems (header : List String) : List (String × ItemVal) → Option (List (String × ItemVal))
  | [] => some []
  | (k, ItemVal.pos p) :: rest =>
    (resolveItems header rest).map fun r => (k, ItemVal.pos p) :: r
  | (k, ItemVal.name s) :: rest =>
    match headerIndex header s with
    | some i => (resolveItems header rest).map fun r => (k, ItemVal.pos ((i : Int) + 1)) :: r
    | none => none

/-- `process_header(header, cfg)` of pyqif.py (lines 131-145). -/
def process_header (header : List String) (cfg : Config) : Option Config :=
  (resolveItems header cfg.items).map fun its => { cfg with items := its }

/-- Row-processing loop of `main` (pyqif.py lines 188-193): the first row
is always consumed by `process_header`, every following row is formatted
by `process_entry` and written to the sink; the value is the text reaching
the sink after the account preamble.  An empty source raises
StopIteration. -/
def pipeline (rows : List (List String)) (cfg : Config) : Option String :=
  match rows with
  | [] => none
  | hdr :: rest =>
    (process_header hdr cfg).bind fun cfg2 =>
      (mapOpt (fun r => process_entry r cfg2) rest).map fun outs => strConcat outs

/-- A record segment consisting solely of lines tagged with field code
`k`, each newline-terminated. -/
def segTagged (k s : String) : Prop :=
  ∃ parts : List String, s = strConcat (parts.map fun p => k ++ p ++ "\n")

/-! ### Helper lemmas -/

theorem mapOpt_of_some (f : α → Option β) (g : α → β) (l : List α)
    (h : ∀ a ∈ l, f a = some (g a)) : mapOpt f l = some (l.map g) := by
  induction l with
  | nil => rfl
  | cons a t ih =>
    simp only [mapOpt, h a (List.mem_cons_self a t), Option.bind,
      ih fun x hx => h x (List.mem_cons_of_mem a hx), Option.map, List.map]

theorem mapOpt_none (f : α → Option β) {l : List α} {a : α}
    (ha : a ∈ l) (h : f a = none) : mapOpt f l = none := by
  induction l with
  | nil => cases ha
  | cons b t ih =>
    rcases List.mem_cons.mp ha with rfl | hmem
    · simp [mapOpt, h]
    · simp only [mapOpt]
      cases hb : f b with
      | none => rfl
      | some v => simp [ih hmem]

theorem mapOpt_forall2 {f : α → Option β} {P : α → β → Prop} :
    ∀ {l : List α} {bs : List β}, mapOpt f l = some bs →
      (∀ a b, f a = some b → P a b) → List.Forall₂ P l bs := by
  intro l
  induction l with
  | nil =>
    intro bs h _
    simp only [mapOpt] at h
    cases h
    exact List.Forall₂.nil
  | cons a t ih =>
    intro bs h H
    simp only [mapOpt] at h
    cases hfa : f a with
    | none => rw [hfa] at h; cases h
    | some b =>
      rw [hfa] at h
      cases hmt : mapOpt f t with
      | none => rw [hmt] at h; cases h
      | some ts =>
        rw [hmt] at h
        simp only [Option.bind, Option.map] at h
        cases h
        exact List.Forall₂.cons (H a b hfa) (ih hmt H)

theorem strConcat_append (l₁ l₂ : List String) :
    strConcat (l₁ ++ l₂) = strConcat l₁ ++ strConcat l₂ := by
  induction l₁ with
  | nil => simp [strConcat]
  | cons s t ih => simp [strConcat, ih, String.append_assoc]

theorem segTagged_empty (k : String) : segTagged k "" := ⟨[], rfl⟩

theorem segTagged_line (k p : String) : segTagged k (k ++ p ++ "\n") :=
  ⟨[p], by simp [strConcat]⟩

theorem segTagged_append {k a b : String} (ha : segTagged k a)
    (hb : segTagged k b) : segTagged k (a ++ b) := by
  obtain ⟨pa, hpa⟩ := ha
  obtain ⟨pb, hpb⟩ := hb
  exact ⟨pa ++ pb, by simp [hpa, hpb, strConcat_append]⟩

theorem segTagged_strConcat {k : String} :
    ∀ {l : List String}, (∀ x ∈ l, segTagged k x) → segTagged k (strConcat l) := by
  intro l
  induction l with
  | nil => intro _; exact segTagged_empty k
  | cons s t ih =>
    intro h
    exact segTagged_append (h s (List.mem_cons_self s t))
      (ih fun x hx => h x (List.mem_cons_of_mem s hx))

theorem headerIndex_none_of_not_mem {header : List String} {s : String}
    (h : s ∉ header) : headerIndex header s = none := by
  induction header with
  | nil => rfl
  | cons a t ih =>
    simp only [headerIndex]
    rw [if_neg, ih]
    · simp
    · exact fun hx => h (List.mem_cons_of_mem a hx)
    · exact fun hx => h (hx ▸ List.mem_cons_self a t)

theorem pyIndex_none_of_ge {l : List String} {i : Int}
    (h0 : 0 ≤ i) (h : (l.length : Int) ≤ i) : pyIndex l i = none := by
  unfold pyIndex
  rw [if_neg (by omega)]
  exact List.get?_eq_none.mpr (by omega)

theorem entryOne_subst (data : List String) (cfg : Config) (k : String)
    (n : Int) (rs : List (String × String)) (cell : String)
    (hk : k ≠ "D") (hs : dictFind k cfg.substitutions = some rs)
    (hc : pyIndex data (n - 1) = some cell) :
    entryOne data cfg (k, ItemVal.pos n) =
      some (strConcat (rs.map fun pr =>
        if 0 < (subn pr.1 pr.2 cell).2 then k ++ (subn pr.1 pr.2 cell).1 ++ "\n"
        else "")) := by
  simp only [entryOne, hk, hs, if_false, reduceIte]
  rw [mapOpt_of_some _
    (fun pr => if 0 < (subn pr.1 pr.2 cell).2 then k ++ (subn pr.1 pr.2 cell).1 ++ "\n" else "")
    rs (fun pr _ => by rw [hc]; rfl)]
  rfl

theorem strConcat_no_match (k cell : String) {rs : List (String × String)}
    (h : ∀ pr ∈ rs, (subn pr.1 pr.2 cell).2 = 0) :
    strConcat (rs.map fun pr =>
      if 0 < (subn pr.1 pr.2 cell).2 then k ++ (subn pr.1 pr.2 cell).1 ++ "\n"
      else "") = "" := by
  induction rs with
  | nil => rfl
  | cons pr t ih =>
    simp only [List.map, strConcat]
    rw [h pr (List.mem_cons_self pr t), if_neg (by omega),
      ih fun x hx => h x (List.mem_cons_of_mem pr hx), String.empty_append]

/-- C8: `gen_header(account, type)` is exactly the two-block qif
preamble `!Account\nN<account>\nT<type>\n^\n!Type:<type>\n^\n`. -/
theorem gen_header_exact (account ty : String) :
    gen_header account ty =
      "!Account\nN" ++ account ++ "\nT" ++ ty ++ "\n^\n!Type:" ++ ty ++ "\n^\n" := rfl

/-- C6: whenever the value strictly matches the input pattern,
`process_date` re-renders the parsed calendar date with the output
pattern; in particular the three example conversions of the spec hold. -/
theorem process_date_roundtrip :
    (∀ (v ip op : String) (pd : PyDate), strptime v ip = some pd →
      process_date v ip op = some (strftime op pd)) ∧
    process_date "12/04/2018" "%d/%m/%Y" "%Y-%m-%d" = some "2018-04-12" ∧
    process_date "2018/04/11" "%Y/%m/%d" "%Y-%m-%d" = some "2018-04-11" ∧
    process_date "01.05.2015" "%d.%m.%Y" "%Y-%m-%d" = some "2015-05-01" := by
  refine ⟨fun v ip op pd h => ?_, by decide, by decide, by decide⟩
  simp [process_date, h]

theorem process_date_roundtrip_witness :
    strptime "12/04/2018" "%d/%m/%Y" = some ⟨2018, 4, 12⟩ ∧
    process_date "12/04/2018" "%d/%m/%Y" "%Y-%m-%d" =
      some (strftime "%Y-%m-%d" ⟨2018, 4, 12⟩) :=
  ⟨by decide,
    process_date_roundtrip.1 "12/04/2018" "%d/%m/%Y" "%Y-%m-%d" ⟨2018, 4, 12⟩ (by decide)⟩

/-- C7: a value that does not match the declared input pattern makes
`process_date` fail instead of returning a result; in particular
`2018-13-40` against `%Y-%m-%d` (out-of-range components), `31/02/2018`
against `%d/%m/%Y` (no such calendar day) and `12-04-2018` against
`%d/%m/%Y` (wrong separators) are all rejected. -/
theorem process_date_reject :
    (∀ v ip op : String, strptime v ip = none → process_date v ip op = none) ∧
    strptime "2018-13-40" "%Y-%m-%d" = none ∧
    process_date "2018-13-40" "%Y-%m-%d" "%Y-%m-%d" = none ∧
    process_date "31/02/2018" "%d/%m/%Y" "%Y-%m-%d" = none ∧
    process_date "12-04-2018" "%d/%m/%Y" "%Y-%m-%d" = none := by
  refine ⟨fun v ip op h => ?_, by decide, by decide, by decide, by decide⟩
  simp [process_date, h]

theorem process_date_reject_witness :
    strptime "2018-13-40" "%Y-%m-%d" = none ∧
    process_date "2018-13-40" "%Y-%m-%d" "%Y-%m-%d" = none :=
  ⟨by decide, process_date_reject.1 "2018-13-40" "%Y-%m-%d" "%Y-%m-%d" (by decide)⟩

/-- C3 counterexample: with the defaults-merged configuration
`{type: Bank, items: {D:1, M:2, T:3}}` there is no `date_input` entry
(DEFAULT_CONFIG supplies none), so `process_entry` aborts with KeyError
on the example row instead of producing the claimed record. -/
theorem process_entry_default_missing_date_input :
    process_entry ["12/04/2018", "Grocery", "42.50"]
      ⟨"Bank", [("D", ItemVal.pos 1), ("M", ItemVal.pos 2), ("T", ItemVal.pos 3)],
        [], none, "%Y-%m-%d"⟩ = none ∧
    process_entry ["12/04/2018", "Grocery", "42.50"]
      ⟨"Bank", [("D", ItemVal.pos 1), ("M", ItemVal.pos 2), ("T", ItemVal.pos 3)],
        [], none, "%Y-%m-%d"⟩ ≠ some "D2018-04-12\nMGrocery\nT42.50\n^\n" :=
  ⟨by decide, by decide⟩

/-- C3 amended: with `date_input` set to `%d/%m/%Y` (and the default
`date_output`), the example row produces exactly the claimed record. -/
theorem process_entry_bank_row_record :
    process_entry ["12/04/2018", "Grocery", "42.50"]
      ⟨"Bank", [("D", ItemVal.pos 1), ("M", ItemVal.pos 2), ("T", ItemVal.pos 3)],
        [], some "%d/%m/%Y", "%Y-%m-%d"⟩ =
      some "D2018-04-12\nMGrocery\nT42.50\n^\n" := by decide

/-- C1 counterexample: with two rules that both match the raw value
`ab`, `process_entry` emits one line per matching rule (`PXb` then
`PaY`), not only the first rule's result. -/
theorem process_entry_multi_rule_counterexample :
    process_entry ["ab"]
      ⟨"Bank", [("P", ItemVal.pos 1)], [("P", [("a", "X"), ("b", "Y")])],
        none, "%Y-%m-%d"⟩ = some "PXb\nPaY\n^\n" ∧
    process_entry ["ab"]
      ⟨"Bank", [("P", ItemVal.pos 1)], [("P", [("a", "X"), ("b", "Y")])],
        none, "%Y-%m-%d"⟩ ≠ some "PXb\n^\n" :=
  ⟨by decide, by decide⟩

/-- C1 amended: every rule of a substituted field is tried against the
field's original raw value, and every rule that matches emits its own
substituted line, in declared order; later matching rules are not
skipped. -/
theorem process_entry_subst_all_matching_rules
    (k : String) (n : Int) (rs : List (String × String)) (data : List String)
    (cell ty : String) (di : Option String) (dout : String)
    (hk : k ≠ "D") (hc : pyIndex data (n - 1) = some cell) :
    process_entry data ⟨ty, [(k, ItemVal.pos n)], [(k, rs)], di, dout⟩ =
      some (strConcat (rs.map fun pr =>
        if 0 < (subn pr.1 pr.2 cell).2 then k ++ (subn pr.1 pr.2 cell).1 ++ "\n"
        else "") ++ "^\n") := by
  have he := entryOne_subst data
    ⟨ty, [(k, ItemVal.pos n)], [(k, rs)], di, dout⟩ k n rs cell hk
    (by simp [dictFind]) hc
  simp [process_entry, mapOpt, he, strConcat, String.append_empty]

theorem process_entry_subst_all_matching_rules_witness :
    process_entry ["ab"]
      ⟨"Bank", [("Q", ItemVal.pos 1)], [("Q", [("a", "X"), ("b", "Y")])],
        none, "%Y-%m-%d"⟩ =
      some (strConcat (([("a", "X"), ("b", "Y")] :
          List (String × String)).map fun pr =>
        if 0 < (subn pr.1 pr.2 "ab").2 then "Q" ++ (subn pr.1 pr.2 "ab").1 ++ "\n"
        else "") ++ "^\n") :=
  process_entry_subst_all_matching_rules "Q" 1 [("a", "X"), ("b", "Y")] ["ab"]
    "ab" "Bank" none "%Y-%m-%d" (by decide) (by decide)

/-- C2: a substituted field whose rules all fail to match contributes
nothing to the record (no line, no error), and matching is
case-insensitive: with table `{P: {foo: bar}}` the raw value `FOOBAR`
is rewritten to `barBAR` and emitted, while a non-matching raw value
leaves only the record terminator. -/
theorem process_entry_subst_no_match_suppressed :
    (∀ (data : List String) (cfg : Config) (k : String) (n : Int)
        (rs : List (String × String)) (cell : String),
      k ≠ "D" → dictFind k cfg.substitutions = some rs →
      pyIndex data (n - 1) = some cell →
      (∀ pr ∈ rs, (subn pr.1 pr.2 cell).2 = 0) →
      entryOne data cfg (k, ItemVal.pos n) = some "") ∧
    process_entry ["xyz"]
      ⟨"Bank", [("P", ItemVal.pos 1)], [("P", [("foo", "bar")])],
        none, "%Y-%m-%d"⟩ = some "^\n" ∧
    subn "foo" "bar" "FOOBAR" = ("barBAR", 1) ∧
    process_entry ["FOOBAR"]
      ⟨"Bank", [("P", ItemVal.pos 1)], [("P", [("foo", "bar")])],
        none, "%Y-%m-%d"⟩ = some "PbarBAR\n^\n" := by
  refine ⟨fun data cfg k n rs cell hk hs hc hall => ?_, by decide, by decide, by decide⟩
  rw [entryOne_subst data cfg k n rs cell hk hs hc, strConcat_no_match k cell hall]

theorem process_entry_subst_no_match_suppressed_witness :
    entryOne ["xyz"]
      ⟨"Bank", [("P", ItemVal.pos 1)], [("P", [("foo", "bar")])],
        none, "%Y-%m-%d"⟩ ("P", ItemVal.pos 1) = some "" :=
  process_entry_subst_no_match_suppressed.1 ["xyz"]
    ⟨"Bank", [("P", ItemVal.pos 1)], [("P", [("foo", "bar")])], none, "%Y-%m-%d"⟩
    "P" 1 [("foo", "bar")] "xyz" (by decide) (by decide) (by decide) (by decide)

theorem resolveItems_none_of_absent {header : List String} {s : String}
    (hs : s ∉ header) :
    ∀ {its : List (String × ItemVal)} {k : String},
      (k, ItemVal.name s) ∈ its → resolveItems header its = none := by
  intro its
  induction its with
  | nil => intro k hk; cases hk
  | cons e t ih =>
    intro k hk
    rcases List.mem_cons.mp hk with heq | hmem
    · rcases heq with rfl
      simp only [resolveItems, headerIndex_none_of_not_mem hs]
    · obtain ⟨k2, v2⟩ := e
      cases v2 with
      | pos p =>
        simp only [resolveItems, ih hmem, Option.map_none']
      | name s2 =>
        cases hh : headerIndex header s2 with
        | none => simp only [resolveItems, hh]
        | some i => simp only [resolveItems, hh, ih hmem, Option.map_none']

/-- C5: name-valued mapping entries are resolved to 1-based column
positions from the header row, and a name absent from the header row
makes the whole resolution fail. -/
theorem process_header_resolution :
    process_header ["id", "date", "memo"]
        ⟨"Bank", [("D", ItemVal.name "date"), ("M", ItemVal.name "memo")],
          [], none, "%Y-%m-%d"⟩ =
      some ⟨"Bank", [("D", ItemVal.pos 2), ("M", ItemVal.pos 3)],
        [], none, "%Y-%m-%d"⟩ ∧
    ∀ (header : List String) (cfg : Config) (k s : String),
      (k, ItemVal.name s) ∈ cfg.items → s ∉ header →
      process_header header cfg = none := by
  refine ⟨by decide, fun header cfg k s hmem habs => ?_⟩
  simp only [process_header, resolveItems_none_of_absent habs hmem, Option.map_none']

theorem process_header_resolution_witness :
    process_header ["id"]
      ⟨"Bank", [("D", ItemVal.name "date")], [], none, "%Y-%m-%d"⟩ = none :=
  process_header_resolution.2 ["id"]
    ⟨"Bank", [("D", ItemVal.name "date")], [], none, "%Y-%m-%d"⟩ "D" "date"
    (by decide) (by decide)

/-- Whether an `items` value is still an unresolved header name. -/
def isNameVal : ItemVal → Bool
  | ItemVal.pos _ => false
  | ItemVal.name _ => true

theorem resolveItems_all_pos {header : List String} :
    ∀ {its : List (String × ItemVal)}, (∀ e ∈ its, isNameVal e.2 = false) →
      resolveItems header its = some its := by
  intro its
  induction its with
  | nil => intro _; rfl
  | cons e t ih =>
    intro h
    obtain ⟨k2, v2⟩ := e
    cases v2 with
    | pos p =>
      simp only [resolveItems, ih fun x hx => h x (List.mem_cons_of_mem _ hx),
        Option.map_some']
    | name s2 =>
      have := h (k2, ItemVal.name s2) (List.mem_cons_self _ _)
      simp [isNameVal] at this

/-- C4 counterexample: with a mapping of fixed positions only, the
pipeline still consumes the first input row in `process_header` and
produces no record from it — a one-row input yields empty output even
though processing that row as data would yield a record. -/
theorem pipeline_first_row_consumed :
    pipeline [["hello"]]
      ⟨"Bank", [("M", ItemVal.pos 1)], [], none, "%Y-%m-%d"⟩ = some "" ∧
    process_header ["hello"]
      ⟨"Bank", [("M", ItemVal.pos 1)], [], none, "%Y-%m-%d"⟩ =
      some ⟨"Bank", [("M", ItemVal.pos 1)], [], none, "%Y-%m-%d"⟩ ∧
    process_entry ["hello"]
      ⟨"Bank", [("M", ItemVal.pos 1)], [], none, "%Y-%m-%d"⟩ = some "Mhello\n^\n" ∧
    pipeline [["hello"]]
      ⟨"Bank", [("M", ItemVal.pos 1)], [], none, "%Y-%m-%d"⟩ ≠ some "Mhello\n^\n" :=
  ⟨by decide, by decide, by decide, by decide⟩

/-- C4 amended: when every mapping entry is already a fixed position,
header resolution leaves the configuration unchanged, but the first
input row is nonetheless consumed by the header-resolution step and
contributes no output record; only the remaining rows are formatted. -/
theorem pipeline_fixed_positions_header_noop (cfg : Config)
    (hdr : List String) (rows : List (List String))
    (h : ∀ e ∈ cfg.items, isNameVal e.2 = false) :
    process_header hdr cfg = some cfg ∧
    pipeline (hdr :: rows) cfg =
      (mapOpt (fun r => process_entry r cfg) rows).map fun outs => strConcat outs := by
  have hnoop : process_header hdr cfg = some cfg := by
    simp only [process_header, resolveItems_all_pos h, Option.map_some']
  exact ⟨hnoop, by simp [pipeline, hnoop]⟩

theorem pipeline_fixed_positions_header_noop_witness :
    process_header ["x"]
      ⟨"Bank", [("M", ItemVal.pos 1)], [], none, "%Y-%m-%d"⟩ =
      some ⟨"Bank", [("M", ItemVal.pos 1)], [], none, "%Y-%m-%d"⟩ ∧
    pipeline [["x"], ["hi"]]
      ⟨"Bank", [("M", ItemVal.pos 1)], [], none, "%Y-%m-%d"⟩ =
      (mapOpt (fun r => process_entry r
        ⟨"Bank", [("M", ItemVal.pos 1)], [], none, "%Y-%m-%d"⟩)
        [["hi"]]).map fun outs => strConcat outs :=
  pipeline_fixed_positions_header_noop
    ⟨"Bank", [("M", ItemVal.pos 1)], [], none, "%Y-%m-%d"⟩ ["x"] [["hi"]]
    (by decide)

theorem mapOpt_all {f : α → Option β} {P : β → Prop}
    (H : ∀ a b, f a = some b → P b) :
    ∀ {l : List α} {bs : List β}, mapOpt f l = some bs → ∀ x ∈ bs, P x := by
  intro l
  induction l with
  | nil =>
    intro bs h x hx
    simp only [mapOpt] at h
    cases h
    cases hx
  | cons a t ih =>
    intro bs h x hx
    simp only [mapOpt] at h
    cases hfa : f a with
    | none => rw [hfa] at h; cases h
    | some b =>
      rw [hfa] at h
      cases hmt : mapOpt f t with
      | none => rw [hmt] at h; cases h
      | some ts =>
        rw [hmt] at h
        simp only [Option.bind, Option.map] at h
        cases h
        rcases List.mem_cons.mp hx with rfl | hx2
        · exact H a x hfa
        · exact ih hmt x hx2

theorem entryOne_segTagged {data : List String} {cfg : Config}
    {e : String × ItemVal} {s : String}
    (h : entryOne data cfg e = some s) : segTagged e.1 s := by
  obtain ⟨k, v⟩ := e
  cases v with
  | name nm => simp [entryOne] at h
  | pos p =>
    simp only [entryOne] at h
    by_cases hk : k = "D"
    · rw [if_pos hk] at h
      rcases Option.bind_eq_some.mp h with ⟨cell, hcell, h2⟩
      rcases Option.bind_eq_some.mp h2 with ⟨di, hdi, h3⟩
      rcases Option.map_eq_some'.mp h3 with ⟨date, hdate, rfl⟩
      exact segTagged_line k date
    · rw [if_neg hk] at h
      cases hdf : dictFind k cfg.substitutions with
      | some rules =>
        rw [hdf] at h
        rcases Option.map_eq_some'.mp h with ⟨segs, hsegs, rfl⟩
        refine segTagged_strConcat (mapOpt_all ?_ hsegs)
        intro a b hb
        rcases Option.map_eq_some'.mp hb with ⟨cell, hcell, rfl⟩
        dsimp only
        split
        · exact segTagged_line k _
        · exact segTagged_empty k
      | none =>
        rw [hdf] at h
        rcases Option.map_eq_some'.mp h with ⟨cell, hcell, rfl⟩
        split
        · exact segTagged_empty k
        · exact segTagged_line k cell

/-- C9: every record produced by `process_entry` is the concatenation,
in the declared insertion order of the field mapping, of one segment per
mapping entry, each segment consisting solely of lines tagged with that
entry's field code, followed by the record terminator. -/
theorem process_entry_field_order (data : List String) (cfg : Config)
    (r : String) (h : process_entry data cfg = some r) :
    ∃ segs : List String,
      List.Forall₂ (fun e seg => segTagged e.1 seg) cfg.items segs ∧
      r = strConcat segs ++ "^\n" := by
  simp only [process_entry] at h
  rcases Option.map_eq_some'.mp h with ⟨segs, hsegs, rfl⟩
  exact ⟨segs, mapOpt_forall2 hsegs fun a b hb => entryOne_segTagged hb, rfl⟩

theorem process_entry_field_order_witness :
    ∃ segs : List String,
      List.Forall₂ (fun e seg => segTagged e.1 seg)
        ([("M", ItemVal.pos 1)] : List (String × ItemVal)) segs ∧
      "Mhi\n^\n" = strConcat segs ++ "^\n" :=
  process_entry_field_order ["hi"]
    ⟨"Bank", [("M", ItemVal.pos 1)], [], none, "%Y-%m-%d"⟩ "Mhi\n^\n" (by decide)

/-- C10 counterexample: a substitution-controlled field with an empty
rule list never evaluates `data[position]`, so a fixed position beyond
the row length raises no IndexError there — the field is silently
suppressed and the record still comes out. -/
theorem process_entry_empty_rules_no_index_error :
    process_entry ["a"]
      ⟨"Bank", [("P", ItemVal.pos 5)], [("P", [])], none, "%Y-%m-%d"⟩ =
      some "^\n" ∧
    process_entry ["a"]
      ⟨"Bank", [("P", ItemVal.pos 5)], [("P", [])], none, "%Y-%m-%d"⟩ ≠ none :=
  ⟨by decide, by decide⟩

/-- C10 amended: `process_entry` indexes the row at position-1.  A
mapped position greater than the row length aborts with an index error
for every field that evaluates its cell (a date field, a plain field, or
a substituted field with at least one rule — only an empty rule list
skips the access); a mapped position of 0 does not fail but silently
reads the last cell of the row; positions in 1..row-length are exactly
1-based column access. -/
theorem process_entry_indexing :
    (∀ (data : List String) (cfg : Config) (k : String) (n : Int),
      (k, ItemVal.pos n) ∈ cfg.items → (data.length : Int) < n →
      (k = "D" ∨ dictFind k cfg.substitutions = none ∨
        ∃ pr rest, dictFind k cfg.substitutions = some (pr :: rest)) →
      process_entry data cfg = none) ∧
    (∀ (data : List String) (c : String), data.getLast? = some c → c ≠ "" →
      process_entry data ⟨"Bank", [("M", ItemVal.pos 0)], [], none, "%Y-%m-%d"⟩ =
        some ("M" ++ c ++ "\n" ++ "^\n")) ∧
    (∀ (data : List String) (j : Nat), 1 ≤ j → j ≤ data.length →
      pyIndex data ((j : Int) - 1) = data.get? (j - 1)) := by
  refine ⟨fun data cfg k n hmem hlen hcase => ?_,
    fun data c hlast hne => ?_, fun data j h1 h2 => ?_⟩
  · have hpy : pyIndex data (n - 1) = none :=
      pyIndex_none_of_ge (by omega) (by omega)
    have hent : entryOne data cfg (k, ItemVal.pos n) = none := by
      simp only [entryOne]
      by_cases hk : k = "D"
      · simp [hk, hpy]
      · rcases hcase with hD | hnone | ⟨pr, rest, hsome⟩
        · exact absurd hD hk
        · simp [hk, hnone, hpy]
        · simp [hk, hsome, hpy, mapOpt]
    simp only [process_entry, mapOpt_none _ hmem hent, Option.map_none']
  · have hne2 : data ≠ [] := by
      intro he
      rw [he] at hlast
      cases hlast
    have hlen : 1 ≤ data.length := List.length_pos.mpr hne2
    have hpy : pyIndex data (-1 : Int) = some c := by
      simp only [pyIndex]
      rw [if_pos (by omega)]
      rw [if_neg (by omega)]
      have ht : ((data.length : Int) + (-1)).toNat = data.length - 1 := by omega
      rw [ht, ← List.getLast?_eq_get? data]
      exact hlast
    simp [process_entry, entryOne, mapOpt, dictFind, hpy, hne, strConcat,
      String.append_empty]
  · simp only [pyIndex]
    rw [if_neg (by omega)]
    congr 1
    omega

theorem process_entry_indexing_witness :
    process_entry ["a"]
      ⟨"Bank", [("M", ItemVal.pos 2)], [], none, "%Y-%m-%d"⟩ = none ∧
    process_entry ["x", "y"]
      ⟨"Bank", [("M", ItemVal.pos 0)], [], none, "%Y-%m-%d"⟩ =
      some ("M" ++ "y" ++ "\n" ++ "^\n") ∧
    pyIndex ["a", "b"] (((2 : Nat) : Int) - 1) = ["a", "b"].get? (2 - 1) :=
  ⟨process_entry_indexing.1 ["a"]
      ⟨"Bank", [("M", ItemVal.pos 2)], [], none, "%Y-%m-%d"⟩ "M" 2
      (by decide) (by decide) (Or.inr (Or.inl (by decide))),
    process_entry_indexing.2.1 ["x", "y"] "y" (by decide) (by decide),
    process_entry_indexing.2.2 ["a", "b"] 2 (by decide) (by decide)⟩
